import Mathlib

/-!
Verification of the batching transaction layer (`mvcc/backend/batch_tx.go`).

The Go code is shallowly embedded: byte strings become `List Nat`, the bolt
database becomes an association list of named ordered buckets together with
the size/statistics numbers the layer reads, and each method of `batchTx`
becomes a pure function on an explicit state.  Fatal store errors (which
terminate the process in the source via `plog.Fatalf`) are modelled as
`Option`-failure (`none`); the store commit and begin operations themselves
are modelled as succeeding, since their failure is likewise fatal and leaves
no observable successor state.  The mutex itself is not part of the state:
the embedded functions describe the serialized effect of each call, and
`Unlock` keeps only its policy side effect (the threshold-triggered commit).
-/

/-- Byte strings, as lists of natural numbers standing for bytes. -/
abbrev Bytes := List Nat

/-- Three-way comparison of byte strings, mirroring Go `bytes.Compare`:
lexicographic, with a strict prefix comparing below any extension. -/
def bytesCompare : Bytes → Bytes → Ordering
  | [], [] => .eq
  | [], _ :: _ => .lt
  | _ :: _, [] => .gt
  | a :: as, b :: bs =>
    if a < b then .lt else if b < a then .gt else bytesCompare as bs

/-- Boolean test for a strictly-less comparison result. -/
def ordIsLt : Ordering → Bool
  | .lt => true
  | _ => false

/-- Contents of one bolt bucket: key/value pairs kept in strictly ascending
key order, the order a bolt cursor walks. -/
abbrev Bucket := List (Bytes × Bytes)

/-- The named buckets of a bolt database. -/
abbrev Buckets := List (Bytes × Bucket)

/-- Lookup of a named bucket, mirroring `Tx.Bucket` (nil when absent). -/
def bucketsFind : Buckets → Bytes → Option Bucket
  | [], _ => none
  | (n, b) :: rest, name => if n = name then some b else bucketsFind rest name

/-- Replacement of the contents of a named bucket. -/
def bucketsSet : Buckets → Bytes → Bucket → Buckets
  | [], _, _ => []
  | (n, b) :: rest, name, b1 =>
    if n = name then (n, b1) :: rest else (n, b) :: bucketsSet rest name b1

/-- Number of buckets carrying a given name (a well-formed database has at
most one). -/
def bucketCount (bs : Buckets) (name : Bytes) : Nat :=
  bs.countP (fun p => decide (p.1 = name))

/-- Free-page and page-size statistics bolt reports (`db.Stats().FreePageN`
and `db.Info().PageSize`). -/
structure DbStats where
  freePageN : Int
  pageSize : Int
deriving Repr, DecidableEq

/-- The bolt database through the narrow contract this layer uses: named
buckets plus the size and statistics published after a reopen. -/
structure Db where
  buckets : Buckets
  size : Int
  stats : DbStats
deriving Repr, DecidableEq

/-- One bolt write transaction: a writable snapshot of the database plus
whether the handle is still open (bolt closes a transaction on commit). -/
structure BoltTx where
  snapshot : Db
  isOpen : Bool
deriving Repr, DecidableEq

/-- The backend fields `batch_tx.go` touches: the store, the configured
batch limit, and the three published metrics. -/
structure Backend where
  db : Db
  batchLimit : Int
  commits : Int
  size : Int
  sizeInUse : Int
deriving Repr, DecidableEq

/-- State of one `batchTx`: the optional transaction handle, the owning
backend, and the pending mutation counter. -/
structure BatchTxState where
  tx : Option BoltTx
  backend : Backend
  pending : Int
deriving Repr, DecidableEq

/-- Tail of `batchTx.commit`: begin a new writable transaction on the
backend database and publish the size and size-in-use metrics. -/
def reopenTx (s : BatchTxState) : BatchTxState :=
  let tx1 : BoltTx := { snapshot := s.backend.db, isOpen := true }
  let size := tx1.snapshot.size
  { s with
    tx := some tx1
    backend := { s.backend with
      size := size
      sizeInUse :=
        size - s.backend.db.stats.freePageN * s.backend.db.stats.pageSize } }

/-- Embedding of `batchTx.commit`: when a transaction handle exists and
there is pending work or a stop request, flush it (bump the commit counter,
persist the snapshot, close the handle, clear pending), then reopen unless
stopping.  With no handle, skip straight to the reopen step. -/
def commitTx (s : BatchTxState) (stop : Bool) : BatchTxState :=
  match s.tx with
  | some tx =>
    if s.pending = 0 ∧ stop = false then s
    else
      let s1 : BatchTxState :=
        { s with
          tx := some { tx with isOpen := false }
          backend := { s.backend with
            db := tx.snapshot
            commits := s.backend.commits + 1 }
          pending := 0 }
      if stop then s1 else reopenTx s1
  | none => if stop then s else reopenTx s

/-- Embedding of `batchTx.Commit`: commit the previous transaction and begin
a new writable one. -/
def BatchTx.Commit (s : BatchTxState) : BatchTxState := commitTx s false

/-- Embedding of `batchTx.CommitAndStop`: commit the previous transaction
and do not create a new one. -/
def BatchTx.CommitAndStop (s : BatchTxState) : BatchTxState := commitTx s true

/-- Embedding of `batchTx.Unlock`: when pending has reached the batch limit,
run a commit-and-reopen cycle and clear pending before the mutex release. -/
def BatchTx.Unlock (s : BatchTxState) : BatchTxState :=
  if s.backend.batchLimit ≤ s.pending then
    let s1 := commitTx s false
    { s1 with pending := 0 }
  else s

/-- Embedding of `newBatchTx`: a fresh state with no transaction handle and
zero pending, immediately run through `Commit`. -/
def newBatchTx (b : Backend) : BatchTxState :=
  BatchTx.Commit { tx := none, backend := b, pending := 0 }

/-- Store errors `Tx.CreateBucket` can report in the model. -/
inductive StoreErr where
  | bucketExists
  | nameRequired
  | txClosed
deriving Repr, DecidableEq

/-- Embedding of bolt `Tx.CreateBucket`: fails on a closed transaction, an
empty name, or an existing bucket; otherwise adds an empty bucket. -/
def BoltTx.createBucket (tx : BoltTx) (name : Bytes) : Except StoreErr BoltTx :=
  if tx.isOpen = false then .error .txClosed
  else if name = [] then .error .nameRequired
  else if (bucketsFind tx.snapshot.buckets name).isSome then .error .bucketExists
  else .ok { tx with snapshot :=
    { tx.snapshot with buckets := tx.snapshot.buckets ++ [(name, [])] } }

/-- Embedding of `batchTx.UnsafeCreateBucket`: the bucket-exists error is
swallowed, any other store error is fatal (`none`), and pending is bumped on
every surviving path. -/
def BatchTx.UnsafeCreateBucket (s : BatchTxState) (name : Bytes) :
    Option BatchTxState :=
  match s.tx with
  | none => none
  | some tx =>
    match tx.createBucket name with
    | .ok tx1 => some { s with tx := some tx1, pending := s.pending + 1 }
    | .error .bucketExists => some { s with pending := s.pending + 1 }
    | .error _ => none

/-- Ordered insert-or-overwrite of one key in a bucket. -/
def bucketPut : Bucket → Bytes → Bytes → Bucket
  | [], key, val => [(key, val)]
  | (k, v) :: rest, key, val =>
    match bytesCompare key k with
    | .lt => (key, val) :: (k, v) :: rest
    | .eq => (key, val) :: rest
    | .gt => (k, v) :: bucketPut rest key val

/-- Embedding of `batchTx.unsafePut` (shared body of `UnsafePut` and
`UnsafeSeqPut`): fatal when the bucket is missing, the key is empty, or the
transaction is closed; otherwise overwrite the key and bump pending.  The
`seq` flag only tunes the bolt page fill percent and has no effect on the
visible data model. -/
def putImpl (s : BatchTxState) (bucketName key value : Bytes) (seq : Bool) :
    Option BatchTxState :=
  match s.tx with
  | none => none
  | some tx =>
    match bucketsFind tx.snapshot.buckets bucketName with
    | none => none
    | some b =>
      if tx.isOpen = false ∨ key = [] then none
      else
        let _ := seq
        some { s with
          tx := some { tx with snapshot := { tx.snapshot with
            buckets :=
              bucketsSet tx.snapshot.buckets bucketName (bucketPut b key value) } }
          pending := s.pending + 1 }

/-- Embedding of `batchTx.UnsafePut`. -/
def BatchTx.UnsafePut (s : BatchTxState) (bucketName key value : Bytes) :
    Option BatchTxState :=
  putImpl s bucketName key value false

/-- Embedding of `batchTx.UnsafeSeqPut`. -/
def BatchTx.UnsafeSeqPut (s : BatchTxState) (bucketName key value : Bytes) :
    Option BatchTxState :=
  putImpl s bucketName key value true

/-- Removal of one key from a bucket; absence leaves the bucket unchanged. -/
def bucketDelete : Bucket → Bytes → Bucket
  | [], _ => []
  | (k, v) :: rest, key => if k = key then rest else (k, v) :: bucketDelete rest key

/-- Embedding of `batchTx.UnsafeDelete`: fatal when the bucket is missing or
the transaction is closed; key absence is not an error; pending is bumped. -/
def BatchTx.UnsafeDelete (s : BatchTxState) (bucketName key : Bytes) :
    Option BatchTxState :=
  match s.tx with
  | none => none
  | some tx =>
    match bucketsFind tx.snapshot.buckets bucketName with
    | none => none
    | some b =>
      if tx.isOpen = false then none
      else
        some { s with
          tx := some { tx with snapshot := { tx.snapshot with
            buckets := bucketsSet tx.snapshot.buckets bucketName (bucketDelete b key) } }
          pending := s.pending + 1 }

/-- Point lookup in a bucket, mirroring bolt `Bucket.Get` (nil if absent). -/
def bucketGet : Bucket → Bytes → Option Bytes
  | [], _ => none
  | (k, v) :: rest, key => if k = key then some v else bucketGet rest key

/-- Cursor seek: drop the pairs whose key is below the target, leaving the
cursor on the first key at or past it. -/
def seekLoop (b : Bucket) (key : Bytes) : Bucket :=
  b.dropWhile (fun kv => ordIsLt (bytesCompare kv.1 key))

/-- Cursor loop of `UnsafeRange`: walk pairs from the seek position while
the key is strictly below `endKey`, breaking once the number of collected
pairs reaches a positive `limit`; `n` counts the pairs collected so far. -/
def scanLoop (endKey : Bytes) (limit : Int) : Bucket → Int → Bucket
  | [], _ => []
  | (k, v) :: rest, n =>
    if ordIsLt (bytesCompare k endKey) then
      if 0 < limit ∧ limit = n + 1 then [(k, v)]
      else (k, v) :: scanLoop endKey limit rest (n + 1)
    else []

/-- Embedding of `batchTx.UnsafeRange`: fatal when the bucket is missing;
with an empty `endKey` a point lookup, otherwise the cursor scan.  The
returned state is the input state (the method reads but never mutates). -/
def BatchTx.UnsafeRange (s : BatchTxState) (bucketName key endKey : Bytes)
    (limit : Int) : Option (BatchTxState × List Bytes × List Bytes) :=
  match s.tx with
  | none => none
  | some tx =>
    match bucketsFind tx.snapshot.buckets bucketName with
    | none => none
    | some b =>
      if endKey = [] then
        match bucketGet b key with
        | none => some (s, [], [])
        | some v => some (s, [key], [v])
      else
        let scanned := scanLoop endKey limit (seekLoop b key) 0
        some (s, scanned.map Prod.fst, scanned.map Prod.snd)

/-- Body of bolt `Bucket.ForEach`, instrumented with the list of visited
keys: visit pairs in stored order, stopping at the first visitor error and
returning it. -/
def forEachLoop (visitor : Bytes → Bytes → Option Nat) :
    Bucket → List Bytes × Option Nat
  | [] => ([], none)
  | (k, v) :: rest =>
    match visitor k v with
    | some e => ([k], some e)
    | none =>
      let r := forEachLoop visitor rest
      (k :: r.1, r.2)

/-- Embedding of `batchTx.UnsafeForEach`: success immediately when the
bucket does not exist, otherwise the instrumented bucket iteration. -/
def BatchTx.UnsafeForEach (s : BatchTxState) (bucketName : Bytes)
    (visitor : Bytes → Bytes → Option Nat) :
    Option (List Bytes × Option Nat) :=
  match s.tx with
  | none => none
  | some tx =>
    match bucketsFind tx.snapshot.buckets bucketName with
    | none => some ([], none)
    | some b => some (forEachLoop visitor b)

/-- Strict key order between byte strings. -/
def keyLt (a b : Bytes) : Prop := bytesCompare a b = .lt

instance (a b : Bytes) : Decidable (keyLt a b) := by
  unfold keyLt; infer_instance

/-- Well-formedness of a bucket: pairs in strictly ascending key order. -/
def BucketSorted (b : Bucket) : Prop :=
  List.Pairwise (fun x y => keyLt x.1 y.1) b

instance (b : Bucket) : Decidable (BucketSorted b) := by
  unfold BucketSorted; infer_instance

/-- Pairs of a bucket lying in the half-open window `[key, endKey)`, read
off the sorted representation: seek to `key`, then keep while below
`endKey`. -/
def inRangePairs (b : Bucket) (key endKey : Bytes) : Bucket :=
  (seekLoop b key).takeWhile (fun kv => ordIsLt (bytesCompare kv.1 endKey))

/-- Result of the range scan as the specification words it: the in-window
pairs, truncated to `limit` entries when `limit` is positive. -/
def rangeSpecScan (b : Bucket) (key endKey : Bytes) (limit : Int) : Bucket :=
  if 0 < limit then (inRangePairs b key endKey).take limit.toNat
  else inRangePairs b key endKey

/-- State right after the flush step of `commitTx`: the snapshot is
persisted, the commit counter bumped, the handle closed, pending cleared. -/
def commitFlush (s : BatchTxState) (tx : BoltTx) : BatchTxState :=
  { s with
    tx := some { tx with isOpen := false }
    backend := { s.backend with
      db := tx.snapshot
      commits := s.backend.commits + 1 }
    pending := 0 }

/-- Concrete database used to exercise the theorems on explicit inputs. -/
def dbW : Db :=
  { buckets := [([7], [([0], [10]), ([1], [11]), ([2], [12])])]
    size := 42
    stats := { freePageN := 3, pageSize := 5 } }

/-- Concrete open transaction over `dbW`. -/
def txW : BoltTx := { snapshot := dbW, isOpen := true }

/-- Concrete backend whose published size differs from the store size. -/
def backendW : Backend :=
  { db := dbW, batchLimit := 3, commits := 0, size := 7, sizeInUse := 7 }

/-- Concrete batch-transaction state with a given pending count. -/
def stW (p : Int) : BatchTxState :=
  { tx := some txW, backend := backendW, pending := p }

/-- Transaction state after adding one empty bucket at the end. -/
def bucketAdded (tx : BoltTx) (name : Bytes) : BoltTx :=
  { tx with snapshot :=
    { tx.snapshot with buckets := tx.snapshot.buckets ++ [(name, [])] } }

/-- Concrete visitor used on explicit inputs: fails on key 1 with error 3. -/
def visW (k : Bytes) (v : Bytes) : Option Nat :=
  let _ := v
  if k = [1] then some 3 else none

theorem commitTx_some_eq (s : BatchTxState) (tx : BoltTx) (htx : s.tx = some tx)
    (stop : Bool) :
    commitTx s stop =
      if s.pending = 0 ∧ stop = false then s
      else if stop then commitFlush s tx else reopenTx (commitFlush s tx) := by
  unfold commitTx
  rw [htx]
  rfl

theorem commitTx_none_eq (s : BatchTxState) (htx : s.tx = none) (stop : Bool) :
    commitTx s stop = if stop then s else reopenTx s := by
  unfold commitTx
  rw [htx]

/-- Claim C2: a Commit call finding an open transaction handle and a zero
pending counter is a no-op: no flush, no commit-counter increment, no metric
change, the transaction handle unchanged. -/
theorem commit_noop_when_no_pending (s : BatchTxState) (tx : BoltTx)
    (htx : s.tx = some tx) (hp : s.pending = 0) :
    BatchTx.Commit s = s ∧
    (BatchTx.Commit s).backend.commits = s.backend.commits ∧
    (BatchTx.Commit s).backend.size = s.backend.size ∧
    (BatchTx.Commit s).backend.sizeInUse = s.backend.sizeInUse ∧
    (BatchTx.Commit s).backend.db = s.backend.db ∧
    (BatchTx.Commit s).tx = s.tx := by
  have h : BatchTx.Commit s = s := by
    unfold BatchTx.Commit
    rw [commitTx_some_eq s tx htx false, if_pos ⟨hp, rfl⟩]
  exact ⟨h, by rw [h], by rw [h], by rw [h], by rw [h], by rw [h]⟩

theorem commit_noop_when_no_pending_witness :
    BatchTx.Commit (stW 0) = stW 0 :=
  (commit_noop_when_no_pending (stW 0) txW rfl rfl).1

/-- Claim C9: at construction the handle is nil and the initial Commit call
flushes nothing and leaves the commit counter alone, yet opens the first
write transaction and publishes the size and size-in-use metrics. -/
theorem newBatchTx_spec (b : Backend) :
    (newBatchTx b).tx = some { snapshot := b.db, isOpen := true } ∧
    (newBatchTx b).backend.commits = b.commits ∧
    (newBatchTx b).backend.db = b.db ∧
    (newBatchTx b).backend.size = b.db.size ∧
    (newBatchTx b).backend.sizeInUse =
      b.db.size - b.db.stats.freePageN * b.db.stats.pageSize ∧
    (newBatchTx b).pending = 0 :=
  ⟨rfl, rfl, rfl, rfl, rfl, rfl⟩

/-- Claim C10: CommitAndStop does not clear the handle field, which still
references the committed transaction, and a subsequent Commit in that state
returns early, changing nothing. -/
theorem commitAndStop_keeps_handle (s : BatchTxState) (tx : BoltTx)
    (htx : s.tx = some tx) :
    (BatchTx.CommitAndStop s).tx =
      some { snapshot := tx.snapshot, isOpen := false } ∧
    (BatchTx.CommitAndStop s).pending = 0 ∧
    BatchTx.Commit (BatchTx.CommitAndStop s) = BatchTx.CommitAndStop s := by
  have h : BatchTx.CommitAndStop s = commitFlush s tx := by
    unfold BatchTx.CommitAndStop
    rw [commitTx_some_eq s tx htx true,
      if_neg (fun hc => Bool.noConfusion hc.2)]
    rfl
  refine ⟨by rw [h]; rfl, by rw [h]; rfl, ?_⟩
  rw [h]
  unfold BatchTx.Commit
  rw [commitTx_some_eq (commitFlush s tx) { tx with isOpen := false } rfl false,
    if_pos ⟨rfl, rfl⟩]

theorem commitAndStop_keeps_handle_witness :
    BatchTx.Commit (BatchTx.CommitAndStop (stW 2)) = BatchTx.CommitAndStop (stW 2) :=
  (commitAndStop_keeps_handle (stW 2) txW rfl).2.2

/-- Claim C7: CommitAndStop with an open handle and positive pending flushes
exactly once (commit counter plus one, pending reset to zero, snapshot
persisted), opens no replacement transaction, and leaves no open handle. -/
theorem commitAndStop_spec (s : BatchTxState) (tx : BoltTx)
    (htx : s.tx = some tx) (hopen : tx.isOpen = true) (hp : 0 < s.pending) :
    (BatchTx.CommitAndStop s).backend.commits = s.backend.commits + 1 ∧
    (BatchTx.CommitAndStop s).pending = 0 ∧
    (BatchTx.CommitAndStop s).backend.db = tx.snapshot ∧
    (BatchTx.CommitAndStop s).tx =
      some { snapshot := tx.snapshot, isOpen := false } ∧
    (∀ t1 : BoltTx, (BatchTx.CommitAndStop s).tx = some t1 → t1.isOpen = false) := by
  have h : BatchTx.CommitAndStop s = commitFlush s tx := by
    unfold BatchTx.CommitAndStop
    rw [commitTx_some_eq s tx htx true,
      if_neg (fun hc => Bool.noConfusion hc.2)]
    rfl
  refine ⟨by rw [h]; rfl, by rw [h]; rfl, by rw [h]; rfl, by rw [h]; rfl, ?_⟩
  intro t1 ht1
  rw [h] at ht1
  have heq : ({ tx with isOpen := false } : BoltTx) = t1 := Option.some.inj ht1
  rw [← heq]

theorem commitAndStop_spec_witness :
    (BatchTx.CommitAndStop (stW 2)).backend.commits =
      (stW 2).backend.commits + 1 ∧
    (BatchTx.CommitAndStop (stW 2)).pending = 0 :=
  ⟨(commitAndStop_spec (stW 2) txW rfl rfl (by decide)).1,
   (commitAndStop_spec (stW 2) txW rfl rfl (by decide)).2.1⟩

/-- Claim C1: with an open handle and a positive configured threshold,
Unlock commits exactly when pending has reached the threshold — flushing,
bumping the commit counter by one, reopening a fresh transaction, and
clearing pending — and otherwise changes nothing. -/
theorem unlock_commit_policy (s : BatchTxState) (tx : BoltTx)
    (htx : s.tx = some tx) (hlim : 0 < s.backend.batchLimit) :
    (s.backend.batchLimit ≤ s.pending →
      (BatchTx.Unlock s).pending = 0 ∧
      (BatchTx.Unlock s).backend.commits = s.backend.commits + 1 ∧
      (BatchTx.Unlock s).tx = some { snapshot := tx.snapshot, isOpen := true } ∧
      (BatchTx.Unlock s).backend.db = tx.snapshot) ∧
    (s.pending < s.backend.batchLimit → BatchTx.Unlock s = s) := by
  constructor
  · intro hge
    have hpne : s.pending ≠ 0 := by omega
    have hns : ¬(s.pending = 0 ∧ false = false) := fun hc => hpne hc.1
    have h : BatchTx.Unlock s = { reopenTx (commitFlush s tx) with pending := 0 } := by
      unfold BatchTx.Unlock
      rw [if_pos hge]
      show { commitTx s false with pending := 0 } = _
      rw [commitTx_some_eq s tx htx false, if_neg hns]
      rfl
    exact ⟨by rw [h], by rw [h]; rfl, by rw [h]; rfl, by rw [h]; rfl⟩
  · intro hlt
    have hn : ¬ s.backend.batchLimit ≤ s.pending := by omega
    unfold BatchTx.Unlock
    rw [if_neg hn]

theorem unlock_commit_policy_witness :
    (BatchTx.Unlock (stW 3)).pending = 0 ∧
    (BatchTx.Unlock (stW 3)).backend.commits = (stW 3).backend.commits + 1 ∧
    BatchTx.Unlock (stW 2) = stW 2 :=
  ⟨((unlock_commit_policy (stW 3) txW rfl (by decide)).1 (by decide)).1,
   ((unlock_commit_policy (stW 3) txW rfl (by decide)).1 (by decide)).2.1,
   (unlock_commit_policy (stW 2) txW rfl (by decide)).2 (by decide)⟩

/-- Claim C4: pending is zero immediately after any flushing commit (Commit,
CommitAndStop, or the Unlock-triggered cycle), and pending is cleared only
by such a flush: a commit that does not flush leaves pending untouched. -/
theorem pending_reset_iff_flush (s : BatchTxState) (tx : BoltTx)
    (htx : s.tx = some tx) :
    (∀ stop : Bool, ¬(s.pending = 0 ∧ stop = false) →
      (commitTx s stop).pending = 0) ∧
    (s.pending = 0 → commitTx s false = s) ∧
    (∀ s2 : BatchTxState, s2.tx = none → ∀ stop : Bool,
      (commitTx s2 stop).pending = s2.pending) ∧
    (BatchTx.CommitAndStop s).pending = 0 ∧
    (s.pending ≠ 0 → (BatchTx.Commit s).pending = 0) := by
  refine ⟨?_, ?_, ?_, ?_, ?_⟩
  · intro stop hns
    rw [commitTx_some_eq s tx htx stop, if_neg hns]
    cases stop
    · rfl
    · rfl
  · intro hp
    rw [commitTx_some_eq s tx htx false, if_pos ⟨hp, rfl⟩]
  · intro s2 h2 stop
    rw [commitTx_none_eq s2 h2 stop]
    cases stop
    · rfl
    · rfl
  · unfold BatchTx.CommitAndStop
    rw [commitTx_some_eq s tx htx true,
      if_neg (fun hc => Bool.noConfusion hc.2)]
    rfl
  · intro hp
    unfold BatchTx.Commit
    rw [commitTx_some_eq s tx htx false, if_neg (fun hc => hp hc.1)]
    rfl

theorem pending_reset_iff_flush_witness :
    (BatchTx.CommitAndStop (stW 5)).pending = 0 ∧
    commitTx (stW 0) false = stW 0 :=
  ⟨(pending_reset_iff_flush (stW 5) txW rfl).2.2.2.1,
   (pending_reset_iff_flush (stW 0) txW rfl).2.1 rfl⟩

theorem createBucketOp_eq (s : BatchTxState) (tx : BoltTx)
    (htx : s.tx = some tx) (name : Bytes) :
    BatchTx.UnsafeCreateBucket s name =
      match tx.createBucket name with
      | .ok tx1 => some { s with tx := some tx1, pending := s.pending + 1 }
      | .error .bucketExists => some { s with pending := s.pending + 1 }
      | .error _ => none := by
  unfold BatchTx.UnsafeCreateBucket
  rw [htx]

theorem createBucket_eq_of_open (tx : BoltTx) (name : Bytes)
    (hopen : tx.isOpen = true) :
    tx.createBucket name =
      if name = [] then .error .nameRequired
      else if (bucketsFind tx.snapshot.buckets name).isSome then
        .error .bucketExists
      else .ok (bucketAdded tx name) := by
  unfold BoltTx.createBucket
  rw [if_neg (show ¬tx.isOpen = false by simp [hopen])]
  rfl

theorem bucketsFind_append_self (bs : Buckets) (name : Bytes) (b : Bucket)
    (h : bucketsFind bs name = none) :
    bucketsFind (bs ++ [(name, b)]) name = some b := by
  induction bs with
  | nil => simp [bucketsFind]
  | cons p rest ih =>
    obtain ⟨n1, b1⟩ := p
    simp only [List.cons_append, bucketsFind] at h ⊢
    by_cases hn : n1 = name
    · rw [if_pos hn] at h
      exact Option.noConfusion h
    · rw [if_neg hn] at h ⊢
      exact ih h

theorem bucketCount_eq_zero_of_find_none (bs : Buckets) (name : Bytes)
    (h : bucketsFind bs name = none) : bucketCount bs name = 0 := by
  induction bs with
  | nil => rfl
  | cons p rest ih =>
    obtain ⟨n1, b1⟩ := p
    unfold bucketsFind at h
    by_cases hn : n1 = name
    · rw [if_pos hn] at h
      exact Option.noConfusion h
    · rw [if_neg hn] at h
      have hr := ih h
      simp [bucketCount, List.countP_cons, hn] at hr ⊢
      exact hr

theorem bucketCount_pos_of_find_some (bs : Buckets) (name : Bytes) (b : Bucket)
    (h : bucketsFind bs name = some b) : 1 ≤ bucketCount bs name := by
  induction bs with
  | nil => exact Option.noConfusion h
  | cons p rest ih =>
    obtain ⟨n1, b1⟩ := p
    unfold bucketsFind at h
    by_cases hn : n1 = name
    · simp [bucketCount, List.countP_cons, hn]
    · rw [if_neg hn] at h
      have hr := ih h
      simp [bucketCount, List.countP_cons, hn] at hr ⊢
      exact hr

theorem bucketCount_append_self (bs : Buckets) (name : Bytes) (b : Bucket) :
    bucketCount (bs ++ [(name, b)]) name = bucketCount bs name + 1 := by
  simp [bucketCount, List.countP_append, List.countP_cons]

theorem putImpl_frame (s : BatchTxState) (n k v : Bytes) (sq : Bool)
    (s1 : BatchTxState) (h : putImpl s n k v sq = some s1) :
    s1.backend = s.backend ∧ s1.pending = s.pending + 1 := by
  unfold putImpl at h
  split at h
  · exact Option.noConfusion h
  · split at h
    · exact Option.noConfusion h
    · split at h
      · exact Option.noConfusion h
      · obtain rfl := Option.some.inj h
        exact ⟨rfl, rfl⟩

theorem deleteOp_frame (s : BatchTxState) (n k : Bytes)
    (s1 : BatchTxState) (h : BatchTx.UnsafeDelete s n k = some s1) :
    s1.backend = s.backend ∧ s1.pending = s.pending + 1 := by
  unfold BatchTx.UnsafeDelete at h
  split at h
  · exact Option.noConfusion h
  · split at h
    · exact Option.noConfusion h
    · split at h
      · exact Option.noConfusion h
      · obtain rfl := Option.some.inj h
        exact ⟨rfl, rfl⟩

theorem createBucketOp_frame (s : BatchTxState) (n : Bytes)
    (s1 : BatchTxState) (h : BatchTx.UnsafeCreateBucket s n = some s1) :
    s1.backend = s.backend ∧ s1.pending = s.pending + 1 := by
  unfold BatchTx.UnsafeCreateBucket at h
  split at h
  · exact Option.noConfusion h
  · split at h
    · obtain rfl := Option.some.inj h
      exact ⟨rfl, rfl⟩
    · obtain rfl := Option.some.inj h
      exact ⟨rfl, rfl⟩
    · exact Option.noConfusion h

/-- Claim C3 counterexample: CommitAndStop on a state whose transaction sees
store size 42 while the published size metric is 7 performs a successful
commit (the commit counter increments) yet leaves the size and size-in-use
metrics stale — so not all three metrics are updated after every commit. -/
theorem metrics_claim_counterexample :
    (BatchTx.CommitAndStop (stW 1)).backend.commits =
      (stW 1).backend.commits + 1 ∧
    (BatchTx.CommitAndStop (stW 1)).backend.size = 7 ∧
    (BatchTx.CommitAndStop (stW 1)).backend.db.size = 42 ∧
    (BatchTx.CommitAndStop (stW 1)).backend.size ≠
      (BatchTx.CommitAndStop (stW 1)).backend.db.size ∧
    (BatchTx.CommitAndStop (stW 1)).backend.sizeInUse = 7 := by
  decide

/-- Claim C3 (amended): mutation operations leave all three metrics
unchanged; a flushing Commit bumps the commit counter and republishes size
and size-in-use from the new transaction; CommitAndStop bumps only the
commit counter and leaves size and size-in-use unchanged. -/
theorem metrics_update_characterization :
    (∀ s s1 : BatchTxState, ∀ n k v : Bytes, ∀ sq : Bool,
      putImpl s n k v sq = some s1 →
      s1.backend.commits = s.backend.commits ∧
      s1.backend.size = s.backend.size ∧
      s1.backend.sizeInUse = s.backend.sizeInUse) ∧
    (∀ s s1 : BatchTxState, ∀ n k : Bytes,
      BatchTx.UnsafeDelete s n k = some s1 →
      s1.backend.commits = s.backend.commits ∧
      s1.backend.size = s.backend.size ∧
      s1.backend.sizeInUse = s.backend.sizeInUse) ∧
    (∀ s s1 : BatchTxState, ∀ n : Bytes,
      BatchTx.UnsafeCreateBucket s n = some s1 →
      s1.backend.commits = s.backend.commits ∧
      s1.backend.size = s.backend.size ∧
      s1.backend.sizeInUse = s.backend.sizeInUse) ∧
    (∀ s : BatchTxState, ∀ tx : BoltTx, s.tx = some tx →
      (BatchTx.CommitAndStop s).backend.size = s.backend.size ∧
      (BatchTx.CommitAndStop s).backend.sizeInUse = s.backend.sizeInUse ∧
      (BatchTx.CommitAndStop s).backend.commits = s.backend.commits + 1) ∧
    (∀ s : BatchTxState, ∀ tx : BoltTx, s.tx = some tx → s.pending ≠ 0 →
      (BatchTx.Commit s).backend.commits = s.backend.commits + 1 ∧
      (BatchTx.Commit s).backend.size = tx.snapshot.size ∧
      (BatchTx.Commit s).backend.sizeInUse =
        tx.snapshot.size -
          tx.snapshot.stats.freePageN * tx.snapshot.stats.pageSize) := by
  refine ⟨?_, ?_, ?_, ?_, ?_⟩
  · intro s s1 n k v sq h
    obtain ⟨hb, _⟩ := putImpl_frame s n k v sq s1 h
    exact ⟨by rw [hb], by rw [hb], by rw [hb]⟩
  · intro s s1 n k h
    obtain ⟨hb, _⟩ := deleteOp_frame s n k s1 h
    exact ⟨by rw [hb], by rw [hb], by rw [hb]⟩
  · intro s s1 n h
    obtain ⟨hb, _⟩ := createBucketOp_frame s n s1 h
    exact ⟨by rw [hb], by rw [hb], by rw [hb]⟩
  · intro s tx htx
    have h : BatchTx.CommitAndStop s = commitFlush s tx := by
      unfold BatchTx.CommitAndStop
      rw [commitTx_some_eq s tx htx true,
        if_neg (fun hc => Bool.noConfusion hc.2)]
      rfl
    exact ⟨by rw [h]; rfl, by rw [h]; rfl, by rw [h]; rfl⟩
  · intro s tx htx hp
    have h : BatchTx.Commit s = reopenTx (commitFlush s tx) := by
      unfold BatchTx.Commit
      rw [commitTx_some_eq s tx htx false, if_neg (fun hc => hp hc.1)]
      rfl
    exact ⟨by rw [h]; rfl, by rw [h]; rfl, by rw [h]; rfl⟩

theorem metrics_update_characterization_witness :
    (BatchTx.CommitAndStop (stW 1)).backend.size = (stW 1).backend.size ∧
    (BatchTx.Commit (stW 1)).backend.commits = (stW 1).backend.commits + 1 ∧
    (∃ s1, putImpl (stW 1) [7] [1] [99] false = some s1 ∧
      s1.backend.size = (stW 1).backend.size) := by
  refine ⟨(metrics_update_characterization.2.2.2.1 (stW 1) txW rfl).1,
    (metrics_update_characterization.2.2.2.2 (stW 1) txW rfl (by decide)).1, ?_⟩
  cases hh : putImpl (stW 1) [7] [1] [99] false with
  | none => exact absurd hh (by decide)
  | some s1 =>
    exact ⟨s1, rfl, (metrics_update_characterization.1 (stW 1) s1 [7] [1] [99] false hh).2.1⟩

/-- Claim C8: with an open handle and a well-formed store, creating the same
nonempty bucket name twice never fails, results in exactly one bucket of
that name, and bumps pending on each call; an empty name, or a closed
transaction, is a store error other than bucket-exists and is fatal. -/
theorem createBucket_idempotent (s : BatchTxState) (tx : BoltTx) (name : Bytes)
    (htx : s.tx = some tx) (hopen : tx.isOpen = true) (hname : name ≠ [])
    (hwf : bucketCount tx.snapshot.buckets name ≤ 1) :
    (∃ s1 s2 : BatchTxState, ∃ tx1 tx2 : BoltTx,
      BatchTx.UnsafeCreateBucket s name = some s1 ∧
      BatchTx.UnsafeCreateBucket s1 name = some s2 ∧
      s1.pending = s.pending + 1 ∧
      s2.pending = s.pending + 2 ∧
      s1.tx = some tx1 ∧ s2.tx = some tx2 ∧
      bucketCount tx1.snapshot.buckets name = 1 ∧
      bucketCount tx2.snapshot.buckets name = 1) ∧
    BatchTx.UnsafeCreateBucket s [] = none ∧
    (∀ s3 : BatchTxState, ∀ tx3 : BoltTx, s3.tx = some tx3 →
      tx3.isOpen = false → BatchTx.UnsafeCreateBucket s3 name = none) := by
  refine ⟨?_, ?_, ?_⟩
  · cases hfind : bucketsFind tx.snapshot.buckets name with
    | none =>
      have h1 : BatchTx.UnsafeCreateBucket s name =
          some { s with tx := some (bucketAdded tx name),
                        pending := s.pending + 1 } := by
        rw [createBucketOp_eq s tx htx name,
          createBucket_eq_of_open tx name hopen, if_neg hname, hfind]
        rfl
      have hfind2 : bucketsFind (bucketAdded tx name).snapshot.buckets name =
          some [] := bucketsFind_append_self _ _ _ hfind
      have h2 : BatchTx.UnsafeCreateBucket
          { s with tx := some (bucketAdded tx name), pending := s.pending + 1 }
          name =
          some { s with tx := some (bucketAdded tx name),
                        pending := s.pending + 1 + 1 } := by
        rw [createBucketOp_eq _ (bucketAdded tx name) rfl name,
          createBucket_eq_of_open (bucketAdded tx name) name hopen,
          if_neg hname, hfind2]
        rfl
      have hcnt : bucketCount (bucketAdded tx name).snapshot.buckets name = 1 := by
        show bucketCount (tx.snapshot.buckets ++ [(name, [])]) name = 1
        rw [bucketCount_append_self,
          bucketCount_eq_zero_of_find_none _ _ hfind]
      exact ⟨_, _, bucketAdded tx name, bucketAdded tx name, h1, h2, rfl,
        by show s.pending + 1 + 1 = s.pending + 2; omega, rfl, rfl, hcnt, hcnt⟩
    | some b =>
      have hcb : tx.createBucket name = .error .bucketExists := by
        rw [createBucket_eq_of_open tx name hopen, if_neg hname, hfind]
        rfl
      have h1 : BatchTx.UnsafeCreateBucket s name =
          some { s with pending := s.pending + 1 } := by
        rw [createBucketOp_eq s tx htx name, hcb]
      have h2 : BatchTx.UnsafeCreateBucket { s with pending := s.pending + 1 }
          name = some { s with pending := s.pending + 1 + 1 } := by
        rw [createBucketOp_eq { s with pending := s.pending + 1 } tx
          (show ({ s with pending := s.pending + 1 } : BatchTxState).tx = some tx
            from htx) name, hcb]
      have hcnt : bucketCount tx.snapshot.buckets name = 1 :=
        le_antisymm hwf (bucketCount_pos_of_find_some _ _ _ hfind)
      exact ⟨_, _, tx, tx, h1, h2, rfl,
        by show s.pending + 1 + 1 = s.pending + 2; omega, htx, htx, hcnt, hcnt⟩
  · rw [createBucketOp_eq s tx htx [],
      createBucket_eq_of_open tx [] hopen, if_pos rfl]
  · intro s3 tx3 h3 hcl
    have hcb : tx3.createBucket name = .error .txClosed := by
      unfold BoltTx.createBucket
      rw [hcl]
      rfl
    rw [createBucketOp_eq s3 tx3 h3 name, hcb]

theorem createBucket_idempotent_witness :
    BatchTx.UnsafeCreateBucket (stW 0) [] = none :=
  (createBucket_idempotent (stW 0) txW [9] rfl rfl (by decide) (by decide)).2.1

theorem ordIsLt_eq_true_iff (o : Ordering) : ordIsLt o = true ↔ o = .lt := by
  cases o <;> simp [ordIsLt]

theorem bytesCompare_self (a : Bytes) : bytesCompare a a = .eq := by
  induction a with
  | nil => rfl
  | cons x xs ih => simp [bytesCompare, ih]

theorem bytesCompare_lt_trans {a b c : Bytes} (h1 : bytesCompare a b = .lt)
    (h2 : bytesCompare b c = .lt) : bytesCompare a c = .lt := by
  induction a generalizing b c with
  | nil =>
    cases b with
    | nil => exact h2
    | cons y ys =>
      cases c with
      | nil => exact Ordering.noConfusion h2
      | cons z zs => rfl
  | cons x xs ih =>
    cases b with
    | nil => exact Ordering.noConfusion h1
    | cons y ys =>
      cases c with
      | nil => exact Ordering.noConfusion h2
      | cons z zs =>
        simp only [bytesCompare] at h1 h2 ⊢
        by_cases hxy : x < y
        · rw [if_pos hxy] at h1
          by_cases hyz : y < z
          · rw [if_pos (show x < z by omega)]
          · rw [if_neg hyz] at h2
            by_cases hzy : z < y
            · rw [if_pos hzy] at h2
              exact Ordering.noConfusion h2
            · rw [if_pos (show x < z by omega)]
        · rw [if_neg hxy] at h1
          by_cases hyx : y < x
          · rw [if_pos hyx] at h1
            exact Ordering.noConfusion h1
          · rw [if_neg hyx] at h1
            by_cases hyz : y < z
            · rw [if_pos (show x < z by omega)]
            · rw [if_neg hyz] at h2
              by_cases hzy : z < y
              · rw [if_pos hzy] at h2
                exact Ordering.noConfusion h2
              · rw [if_neg hzy] at h2
                rw [if_neg (show ¬x < z by omega), if_neg (show ¬z < x by omega)]
                exact ih h1 h2

theorem bytesCompare_gt_iff (a b : Bytes) :
    bytesCompare a b = .gt ↔ bytesCompare b a = .lt := by
  induction a generalizing b with
  | nil => cases b <;> simp [bytesCompare]
  | cons x xs ih =>
    cases b with
    | nil => simp [bytesCompare]
    | cons y ys =>
      simp only [bytesCompare]
      by_cases hxy : x < y
      · rw [if_pos hxy, if_neg (show ¬y < x by omega), if_pos hxy]
        constructor
        · exact fun h => Ordering.noConfusion h
        · exact fun h => Ordering.noConfusion h
      · by_cases hyx : y < x
        · rw [if_neg hxy, if_pos hyx, if_pos hyx]
          constructor
          · exact fun _ => rfl
          · exact fun _ => rfl
        · rw [if_neg hxy, if_neg hyx, if_neg hyx, if_neg hxy]
          exact ih ys

theorem takeWhileEnd_cons_pos (t k v : Bytes) (rest : Bucket)
    (h : ordIsLt (bytesCompare k t) = true) :
    List.takeWhile (fun kv => ordIsLt (bytesCompare kv.1 t)) ((k, v) :: rest) =
      (k, v) :: List.takeWhile (fun kv => ordIsLt (bytesCompare kv.1 t)) rest := by
  simp [List.takeWhile_cons, h]

theorem takeWhileEnd_cons_neg (t k v : Bytes) (rest : Bucket)
    (h : ¬ordIsLt (bytesCompare k t) = true) :
    List.takeWhile (fun kv => ordIsLt (bytesCompare kv.1 t)) ((k, v) :: rest) = [] := by
  simp [List.takeWhile_cons]
  simpa using h

theorem seekLoop_cons_pos (t : Bytes) (a : Bytes × Bytes) (rest : Bucket)
    (h : ordIsLt (bytesCompare a.1 t) = true) :
    seekLoop (a :: rest) t = seekLoop rest t := by
  unfold seekLoop
  simp [List.dropWhile_cons, h]

theorem seekLoop_cons_neg (t : Bytes) (a : Bytes × Bytes) (rest : Bucket)
    (h : ¬ordIsLt (bytesCompare a.1 t) = true) :
    seekLoop (a :: rest) t = a :: rest := by
  have hf : ordIsLt (bytesCompare a.1 t) = false := by simpa using h
  unfold seekLoop
  simp [List.dropWhile_cons, hf]

theorem scanLoop_nonpos (endKey : Bytes) (limit : Int) (hl : limit ≤ 0) :
    ∀ (l : Bucket) (n : Int),
      scanLoop endKey limit l n =
        l.takeWhile (fun kv => ordIsLt (bytesCompare kv.1 endKey)) := by
  intro l
  induction l with
  | nil => intro n; rfl
  | cons kv rest ih =>
    intro n
    obtain ⟨k, v⟩ := kv
    unfold scanLoop
    by_cases hkE : ordIsLt (bytesCompare k endKey) = true
    · rw [if_pos hkE, takeWhileEnd_cons_pos endKey k v rest hkE,
        if_neg (fun hc => absurd hc.1 (by omega)), ih (n + 1)]
    · rw [if_neg hkE, takeWhileEnd_cons_neg endKey k v rest hkE]

theorem scanLoop_pos (endKey : Bytes) (limit : Int) (hl : 0 < limit) :
    ∀ (l : Bucket) (n : Int), n < limit →
      scanLoop endKey limit l n =
        (l.takeWhile (fun kv => ordIsLt (bytesCompare kv.1 endKey))).take
          (limit - n).toNat := by
  intro l
  induction l with
  | nil => intro n hn; simp [scanLoop]
  | cons kv rest ih =>
    intro n hn
    obtain ⟨k, v⟩ := kv
    unfold scanLoop
    by_cases hkE : ordIsLt (bytesCompare k endKey) = true
    · rw [if_pos hkE, takeWhileEnd_cons_pos endKey k v rest hkE]
      by_cases hbr : limit = n + 1
      · rw [if_pos ⟨hl, hbr⟩]
        have h1 : (limit - n).toNat = 1 := by omega
        rw [h1]
        simp
      · rw [if_neg (fun hc => hbr hc.2), ih (n + 1) (by omega)]
        have h1 : (limit - n).toNat = (limit - (n + 1)).toNat + 1 := by omega
        rw [h1, List.take_succ_cons]
    · rw [if_neg hkE, takeWhileEnd_cons_neg endKey k v rest hkE]
      simp

theorem scanLoop_eq_rangeSpecScan (b : Bucket) (key endKey : Bytes)
    (limit : Int) :
    scanLoop endKey limit (seekLoop b key) 0 = rangeSpecScan b key endKey limit := by
  unfold rangeSpecScan inRangePairs
  by_cases hl : 0 < limit
  · rw [if_pos hl, scanLoop_pos endKey limit hl (seekLoop b key) 0 hl,
      Int.sub_zero]
  · rw [if_neg hl, scanLoop_nonpos endKey limit (by omega) (seekLoop b key) 0]

theorem mem_seekLoop_not_lt {b : Bucket} {key : Bytes} (hs : BucketSorted b)
    {x : Bytes × Bytes} (hx : x ∈ seekLoop b key) :
    ¬bytesCompare x.1 key = .lt := by
  induction b with
  | nil => exact absurd hx (by simp [seekLoop])
  | cons a rest ih =>
    rw [BucketSorted, List.pairwise_cons] at hs
    obtain ⟨ha, hrest⟩ := hs
    by_cases hlt : ordIsLt (bytesCompare a.1 key) = true
    · rw [seekLoop_cons_pos key a rest hlt] at hx
      exact ih hrest hx
    · rw [seekLoop_cons_neg key a rest hlt] at hx
      rcases List.mem_cons.mp hx with heq | hmem
      · subst heq
        exact fun hc => hlt ((ordIsLt_eq_true_iff _).mpr hc)
      · intro hc
        have hax : keyLt a.1 x.1 := ha x hmem
        exact hlt ((ordIsLt_eq_true_iff _).mpr (bytesCompare_lt_trans hax hc))

theorem rangeSpecScan_sublist (b : Bucket) (key endKey : Bytes) (limit : Int) :
    (rangeSpecScan b key endKey limit).Sublist b := by
  have h0 : (inRangePairs b key endKey).Sublist b :=
    (List.takeWhile_sublist _).trans (List.dropWhile_sublist _)
  unfold rangeSpecScan
  by_cases hl : 0 < limit
  · rw [if_pos hl]
    exact (List.take_sublist _ _).trans h0
  · rw [if_neg hl]
    exact h0

theorem mem_rangeSpecScan {b : Bucket} {key endKey : Bytes} {limit : Int}
    (hs : BucketSorted b) {x : Bytes × Bytes}
    (hx : x ∈ rangeSpecScan b key endKey limit) :
    ¬bytesCompare x.1 key = .lt ∧ bytesCompare x.1 endKey = .lt := by
  have hx2 : x ∈ inRangePairs b key endKey := by
    unfold rangeSpecScan at hx
    by_cases hl : 0 < limit
    · rw [if_pos hl] at hx
      exact List.take_subset _ _ hx
    · rw [if_neg hl] at hx
      exact hx
  constructor
  · have hx3 : x ∈ seekLoop b key := (List.takeWhile_sublist _).subset hx2
    exact mem_seekLoop_not_lt hs hx3
  · have hp := List.mem_takeWhile_imp (show x ∈ List.takeWhile
      (fun kv => ordIsLt (bytesCompare kv.1 endKey)) (seekLoop b key) from hx2)
    exact (ordIsLt_eq_true_iff _).mp hp

theorem rangeSpecScan_pairwise (b : Bucket) (key endKey : Bytes) (limit : Int)
    (hs : BucketSorted b) :
    List.Pairwise keyLt ((rangeSpecScan b key endKey limit).map Prod.fst) := by
  have h1 : List.Pairwise (fun x y : Bytes × Bytes => keyLt x.1 y.1)
      (rangeSpecScan b key endKey limit) :=
    List.Pairwise.sublist (rangeSpecScan_sublist b key endKey limit) hs
  exact List.pairwise_map.mpr h1

theorem rangeOp_eq (s : BatchTxState) (tx : BoltTx) (bucketName : Bytes)
    (b : Bucket) (htx : s.tx = some tx)
    (hb : bucketsFind tx.snapshot.buckets bucketName = some b)
    (key endKey : Bytes) (limit : Int) :
    BatchTx.UnsafeRange s bucketName key endKey limit =
      if endKey = [] then
        (match bucketGet b key with
         | none => some (s, [], [])
         | some v => some (s, [key], [v]))
      else
        some (s, (scanLoop endKey limit (seekLoop b key) 0).map Prod.fst,
          (scanLoop endKey limit (seekLoop b key) 0).map Prod.snd) := by
  unfold BatchTx.UnsafeRange
  rw [htx]
  simp only [hb]

/-- Claim C5: over an existing well-formed (sorted) bucket, UnsafeRange with
empty endKey is a point lookup returning one pair carrying the key's current
value when present and an empty result (not an error) when absent; with
non-empty endKey it returns the window pairs in strictly ascending key
order, every returned key k satisfying key ≤ k < endKey, truncated to limit
entries when limit is positive and unbounded otherwise; the state (and so
the pending counter) is returned unchanged in every case. -/
theorem rangeOp_spec (s : BatchTxState) (tx : BoltTx) (bucketName : Bytes)
    (b : Bucket) (htx : s.tx = some tx)
    (hb : bucketsFind tx.snapshot.buckets bucketName = some b)
    (hs : BucketSorted b) (key endKey : Bytes) (limit : Int) :
    (∀ v : Bytes, bucketGet b key = some v →
      BatchTx.UnsafeRange s bucketName key [] limit = some (s, [key], [v])) ∧
    (bucketGet b key = none →
      BatchTx.UnsafeRange s bucketName key [] limit = some (s, [], [])) ∧
    (endKey ≠ [] →
      BatchTx.UnsafeRange s bucketName key endKey limit =
        some (s, (rangeSpecScan b key endKey limit).map Prod.fst,
          (rangeSpecScan b key endKey limit).map Prod.snd) ∧
      List.Pairwise keyLt ((rangeSpecScan b key endKey limit).map Prod.fst) ∧
      (∀ k ∈ (rangeSpecScan b key endKey limit).map Prod.fst,
        ¬bytesCompare key k = .gt ∧ bytesCompare k endKey = .lt) ∧
      (0 < limit →
        ((rangeSpecScan b key endKey limit).map Prod.fst).length ≤
          limit.toNat)) := by
  refine ⟨?_, ?_, ?_⟩
  · intro v hv
    rw [rangeOp_eq s tx bucketName b htx hb key [] limit, if_pos rfl, hv]
  · intro hv
    rw [rangeOp_eq s tx bucketName b htx hb key [] limit, if_pos rfl, hv]
  · intro hend
    refine ⟨?_, ?_, ?_, ?_⟩
    · rw [rangeOp_eq s tx bucketName b htx hb key endKey limit,
        if_neg hend, scanLoop_eq_rangeSpecScan b key endKey limit]
    · exact rangeSpecScan_pairwise b key endKey limit hs
    · intro k hk
      obtain ⟨x, hxmem, hxeq⟩ := List.mem_map.mp hk
      obtain ⟨h1, h2⟩ := mem_rangeSpecScan hs hxmem
      rw [hxeq] at h1 h2
      exact ⟨fun hc => h1 ((bytesCompare_gt_iff key k).mp hc), h2⟩
    · intro hl
      unfold rangeSpecScan
      rw [if_pos hl]
      simp only [List.length_map, List.length_take]
      exact Nat.min_le_left _ _

theorem rangeOp_spec_witness :
    BatchTx.UnsafeRange (stW 0) [7] [0] [] 0 = some (stW 0, [[0]], [[10]]) ∧
    BatchTx.UnsafeRange (stW 0) [7] [5] [] 0 = some (stW 0, [], []) ∧
    BatchTx.UnsafeRange (stW 0) [7] [0] [2] 5 =
      some (stW 0, [[0], [1]], [[10], [11]]) := by
  refine ⟨?_, ?_, ?_⟩
  · exact (rangeOp_spec (stW 0) txW [7] _ rfl rfl (by decide) [0] [] 0).1
      [10] rfl
  · exact (rangeOp_spec (stW 0) txW [7] _ rfl rfl (by decide) [5] [] 0).2.1
      rfl
  · have h := ((rangeOp_spec (stW 0) txW [7] _ rfl rfl (by decide)
      [0] [2] 5).2.2 (by decide)).1
    exact h.trans (by decide)

theorem forEachLoop_firstFailure (visitor : Bytes → Bytes → Option Nat)
    (pre : Bucket) (k v : Bytes) (post : Bucket) (e : Nat)
    (hpre : ∀ p ∈ pre, visitor p.1 p.2 = none) (hk : visitor k v = some e) :
    forEachLoop visitor (pre ++ (k, v) :: post) =
      (pre.map Prod.fst ++ [k], some e) := by
  induction pre with
  | nil =>
    simp only [List.nil_append, forEachLoop, hk, List.map_nil]
  | cons a rest ih =>
    obtain ⟨ak, av⟩ := a
    have ha : visitor ak av = none := hpre (ak, av) (List.mem_cons_self _ _)
    have hrest : ∀ p ∈ rest, visitor p.1 p.2 = none :=
      fun p hp => hpre p (List.mem_cons_of_mem _ hp)
    simp only [List.cons_append, forEachLoop, ha, List.append_eq, ih hrest,
      List.map_cons]

theorem forEachLoop_all_ok (visitor : Bytes → Bytes → Option Nat) (b : Bucket)
    (h : ∀ p ∈ b, visitor p.1 p.2 = none) :
    forEachLoop visitor b = (b.map Prod.fst, none) := by
  induction b with
  | nil => rfl
  | cons a rest ih =>
    obtain ⟨ak, av⟩ := a
    have ha : visitor ak av = none := h _ (List.mem_cons_self _ _)
    have hrest : ∀ p ∈ rest, visitor p.1 p.2 = none :=
      fun p hp => h p (List.mem_cons_of_mem _ hp)
    simp only [forEachLoop, ha, ih hrest, List.map_cons]

theorem forEachOp_eq (s : BatchTxState) (tx : BoltTx)
    (htx : s.tx = some tx) (bucketName : Bytes)
    (visitor : Bytes → Bytes → Option Nat) :
    BatchTx.UnsafeForEach s bucketName visitor =
      match bucketsFind tx.snapshot.buckets bucketName with
      | none => some ([], none)
      | some b => some (forEachLoop visitor b) := by
  unfold BatchTx.UnsafeForEach
  rw [htx]

/-- Claim C6: UnsafeForEach on a missing bucket returns success immediately;
on an existing bucket it visits pairs in stored ascending order, and when
the visitor first fails on some pair, exactly the pairs up to and including
that one are visited and the visitor's error is returned to the caller;
when the visitor never fails, every pair is visited and success returned.
UnsafeForEach is the only operation of the interface whose result carries a
caller-level error value; the others are modelled with no error channel
(fatal-or-success). -/
theorem forEachOp_spec (s : BatchTxState) (tx : BoltTx)
    (htx : s.tx = some tx) (bucketName : Bytes)
    (visitor : Bytes → Bytes → Option Nat) :
    (bucketsFind tx.snapshot.buckets bucketName = none →
      BatchTx.UnsafeForEach s bucketName visitor = some ([], none)) ∧
    (∀ b pre post : Bucket, ∀ k v : Bytes, ∀ e : Nat,
      bucketsFind tx.snapshot.buckets bucketName = some b →
      b = pre ++ (k, v) :: post →
      (∀ p ∈ pre, visitor p.1 p.2 = none) →
      visitor k v = some e →
      BatchTx.UnsafeForEach s bucketName visitor =
        some (pre.map Prod.fst ++ [k], some e) ∧
      (BucketSorted b → List.Pairwise keyLt (pre.map Prod.fst ++ [k]))) ∧
    (∀ b : Bucket, bucketsFind tx.snapshot.buckets bucketName = some b →
      (∀ p ∈ b, visitor p.1 p.2 = none) →
      BatchTx.UnsafeForEach s bucketName visitor =
        some (b.map Prod.fst, none)) := by
  refine ⟨?_, ?_, ?_⟩
  · intro hnone
    rw [forEachOp_eq s tx htx bucketName visitor, hnone]
  · intro b pre post k v e hbfind hbeq hpre hk
    constructor
    · rw [forEachOp_eq s tx htx bucketName visitor, hbfind, hbeq]
      show some (forEachLoop visitor (pre ++ (k, v) :: post)) =
        some (pre.map Prod.fst ++ [k], some e)
      rw [forEachLoop_firstFailure visitor pre k v post e hpre hk]
    · intro hsort
      have hsub : (pre ++ [(k, v)]).Sublist (pre ++ (k, v) :: post) :=
        List.Sublist.append_left
          (List.cons_sublist_cons.mpr (List.nil_sublist post)) pre
      have hb2 : BucketSorted (pre ++ (k, v) :: post) := hbeq ▸ hsort
      have hp1 : List.Pairwise (fun x y : Bytes × Bytes => keyLt x.1 y.1)
          (pre ++ [(k, v)]) := List.Pairwise.sublist hsub hb2
      have hp2 : List.Pairwise keyLt ((pre ++ [(k, v)]).map Prod.fst) :=
        List.pairwise_map.mpr hp1
      simpa using hp2
  · intro b hbfind hall
    rw [forEachOp_eq s tx htx bucketName visitor, hbfind]
    show some (forEachLoop visitor b) = some (b.map Prod.fst, none)
    rw [forEachLoop_all_ok visitor b hall]

theorem forEachOp_spec_witness :
    BatchTx.UnsafeForEach (stW 0) [7] visW = some ([[0], [1]], some 3) ∧
    BatchTx.UnsafeForEach (stW 0) [8] visW = some ([], none) := by
  constructor
  · have h := ((forEachOp_spec (stW 0) txW rfl [7] visW).2.1
      [([0], [10]), ([1], [11]), ([2], [12])] [([0], [10])] [([2], [12])]
      [1] [11] 3 rfl rfl (by decide) (by decide)).1
    exact h.trans (by decide)
  · exact (forEachOp_spec (stW 0) txW rfl [8] visW).1 rfl
